import Mathlib

/-
Verification of the weighted-draw engine of the room-lottery application.

The embedded code is `DatabaseStorage.getRandomRooms` and
`DatabaseStorage.getRandomRoomItemsWithDetails` (the production storage
backend).  Database access is abstracted away: the room catalog and the
room-item assignment pool are passed in as lists, and the ambient random
shuffle (`array.sort with a random comparator` in the original) is passed
in as an explicit `shuffle` function, so that properties can be stated
for every possible random permutation.
-/

namespace Drafting

/-- Item payload carried through the draw (opaque to the algorithm). -/
structure Item where
  id : Nat
deriving DecidableEq

/-- Room entity, reduced to the fields the draw engine reads. -/
structure Room where
  id : Nat
  probability : Int
  itemsToShow : Int
  randomizeRepeats : Bool
deriving DecidableEq

/-- A room-item assignment joined with its item detail
(`RoomItemWithDetails` in shared/schema.ts). -/
structure RoomItemWithDetails where
  id : Nat
  roomId : Nat
  itemId : Nat
  probability : Int
  canRepeat : Bool
  maxRepeats : Int
  isGuaranteed : Bool
  item : Item
deriving DecidableEq

/-- JavaScript `v || d` on integers: `0` is falsy, every other integer is
truthy. -/
def jsOr (v d : Int) : Int := if v = 0 then d else v

/-- The replication pool of `getRandomRooms`: each room is appended
`room.probability` times (a non-positive probability contributes no
copies, matching the JS `for (let i = 0; i < room.probability; i++)`). -/
def weightedRoomsFor (allRooms : List Room) : List Room :=
  allRooms.flatMap fun room => List.replicate room.probability.toNat room

/-- The walk over the shuffled replication pool of `getRandomRooms`:
push each room whose id is not yet selected, and break as soon as the
result length reaches `count` (checked after the push, as in the JS). -/
def walkRooms (count : Int) : List Room → List Nat → Nat → List Room
  | [], _, _ => []
  | r :: rest, ids, len =>
    if r.id ∈ ids then walkRooms count rest ids len
    else if ((len + 1 : Nat) : Int) = count then [r]
    else r :: walkRooms count rest (r.id :: ids) (len + 1)

/-- `DatabaseStorage.getRandomRooms`, with the catalog passed in for the
`getRooms()` call and the random sort passed in as `shuffle`. -/
def getRandomRooms (shuffle : List Room → List Room)
    (allRooms : List Room) (count : Int) : List Room :=
  if (allRooms.length : Int) ≤ count then allRooms
  else walkRooms count (shuffle (weightedRoomsFor allRooms)) [] 0

/-- Number of copies of an assignment in the item replication pool:
`Math.max(1, Math.floor((roomItem.probability || 100) / 10))`. -/
def copiesOf (ri : RoomItemWithDetails) : Nat :=
  (max 1 ((jsOr ri.probability 100).fdiv 10)).toNat

/-- The replication pool of `getRandomRoomItemsWithDetails` built before
shuffling and consumption. -/
def itemPoolFor (l : List RoomItemWithDetails) : List RoomItemWithDetails :=
  l.flatMap fun ri => List.replicate (copiesOf ri) ri

/-- The effective repeat cap of an assignment: `roomItem.maxRepeats || 1`. -/
def capOf (ri : RoomItemWithDetails) : Int := jsOr ri.maxRepeats 1

/-- The consumption loop of `getRandomRoomItemsWithDetails`:
`while (result.length < count && itemPool.length > 0)`, shifting the head
of the pool, skipping entries past their repeat budget, appending accepted
entries to the result, and re-queuing an accepted repeatable entry at the
back of the pool when the room has `randomizeRepeats` and the entry is
still below its cap and the result is still short.  `fuel` bounds the
number of loop iterations: `none` means the loop did not finish within
`fuel` iterations. -/
def consumeItems (room : Room) (count : Int) (fuel : Nat)
    (pool : List RoomItemWithDetails) (cnts : Nat → Nat)
    (result : List RoomItemWithDetails) :
    Option (List RoomItemWithDetails) :=
  if (result.length : Int) < count then
    match pool with
    | [] => some result
    | ri :: rest =>
      match fuel with
      | 0 => none
      | fuel' + 1 =>
        if ri.canRepeat = false ∧ 0 < cnts ri.itemId then
          consumeItems room count fuel' rest cnts result
        else if ri.canRepeat = true ∧ (cnts ri.itemId : Int) ≥ capOf ri then
          consumeItems room count fuel' rest cnts result
        else
          consumeItems room count fuel'
            (if room.randomizeRepeats = true ∧ ri.canRepeat = true ∧
                ((cnts ri.itemId : Int) + 1 < capOf ri) ∧
                (((result ++ [ri]).length : Int) < count)
              then rest ++ [ri] else rest)
            (fun k => if k = ri.itemId then cnts ri.itemId + 1 else cnts k)
            (result ++ [ri])
  else some result

/-- `DatabaseStorage.getRandomRoomItemsWithDetails`, with the room passed
in for the `getRoomById` lookup, the assignment pool passed in for the
`getRoomItemsWithDetails` call, and the random sort passed in as
`shuffle`.  The fuel `itemPool.length + count.toNat` is sufficient for the
loop to run to completion (proved below), so the `getD []` default is
never taken. -/
def getRandomRoomItemsWithDetails
    (shuffle : List RoomItemWithDetails → List RoomItemWithDetails)
    (room : Room) (allRoomItems : List RoomItemWithDetails)
    (count : Int) : List RoomItemWithDetails :=
  if (allRoomItems.length : Int) ≤ count then allRoomItems
  else
    (consumeItems room count
      ((shuffle (itemPoolFor allRoomItems)).length + count.toNat)
      (shuffle (itemPoolFor allRoomItems)) (fun _ => 0) []).getD []

/-! ### Unfolding lemmas for the consumption loop -/

/-- When the result is already long enough, the loop exits with the
current result, whatever the fuel and pool. -/
theorem consumeItems_stop (room : Room) (count : Int) (fuel : Nat)
    (pool : List RoomItemWithDetails) (cnts : Nat → Nat)
    (result : List RoomItemWithDetails)
    (hc : ¬ ((result.length : Int) < count)) :
    consumeItems room count fuel pool cnts result = some result := by
  unfold consumeItems
  rw [if_neg hc]

/-- When the pool is exhausted, the loop exits with the current result. -/
theorem consumeItems_nil (room : Room) (count : Int) (fuel : Nat)
    (cnts : Nat → Nat) (result : List RoomItemWithDetails) :
    consumeItems room count fuel [] cnts result = some result := by
  unfold consumeItems
  split <;> rfl

/-- With no fuel left but a pending iteration, the loop reports
non-completion. -/
theorem consumeItems_zero (room : Room) (count : Int)
    (ri : RoomItemWithDetails) (rest : List RoomItemWithDetails)
    (cnts : Nat → Nat) (result : List RoomItemWithDetails)
    (hc : (result.length : Int) < count) :
    consumeItems room count 0 (ri :: rest) cnts result = none := by
  unfold consumeItems
  rw [if_pos hc]

/-- One iteration of the consumption loop, spelled out. -/
theorem consumeItems_succ (room : Room) (count : Int) (fuel : Nat)
    (ri : RoomItemWithDetails) (rest : List RoomItemWithDetails)
    (cnts : Nat → Nat) (result : List RoomItemWithDetails)
    (hc : (result.length : Int) < count) :
    consumeItems room count (fuel + 1) (ri :: rest) cnts result =
      if ri.canRepeat = false ∧ 0 < cnts ri.itemId then
        consumeItems room count fuel rest cnts result
      else if ri.canRepeat = true ∧ (cnts ri.itemId : Int) ≥ capOf ri then
        consumeItems room count fuel rest cnts result
      else
        consumeItems room count fuel
          (if room.randomizeRepeats = true ∧ ri.canRepeat = true ∧
              ((cnts ri.itemId : Int) + 1 < capOf ri) ∧
              (((result ++ [ri]).length : Int) < count)
            then rest ++ [ri] else rest)
          (fun k => if k = ri.itemId then cnts ri.itemId + 1 else cnts k)
          (result ++ [ri]) := by
  conv_lhs => unfold consumeItems
  rw [if_pos hc]

/-! ### Concrete inputs used by counterexamples and witnesses -/

def c1Room : Room := ⟨1, 50, 3, true⟩

/-- A guaranteed assignment with low weight (1 copy in the pool). -/
def c1Guaranteed : RoomItemWithDetails := ⟨1, 1, 1, 10, false, 1, true, ⟨1⟩⟩

/-- A non-guaranteed assignment with full weight (10 copies in the pool). -/
def c1Weighted : RoomItemWithDetails := ⟨2, 1, 2, 100, false, 1, false, ⟨2⟩⟩

def c2Room : Room := ⟨7, 1, 3, true⟩

def c3Room : Room := ⟨1, 50, 3, true⟩

/-- The single assignment of the C3 scenario: probability 100,
canRepeat true, maxRepeats 3, isGuaranteed false. -/
def c3Assign : RoomItemWithDetails := ⟨1, 1, 1, 100, true, 3, false, ⟨1⟩⟩

def c4Room : Room := ⟨9, 1, 3, true⟩

def c4RoomA : Room := ⟨1, 1, 3, true⟩

def c4RoomB : Room := ⟨2, 1, 3, true⟩

def c7Room : Room := ⟨1, 50, 3, true⟩

/-- Repeatable assignment: itemId 1, canRepeat, maxRepeats 3, 1 copy. -/
def c7A : RoomItemWithDetails := ⟨1, 1, 1, 1, true, 3, false, ⟨1⟩⟩

/-- Three one-shot assignments sharing itemId 2, 1 copy each. -/
def c7B : RoomItemWithDetails := ⟨2, 1, 2, 1, false, 1, false, ⟨2⟩⟩

def c7C : RoomItemWithDetails := ⟨3, 1, 2, 1, false, 1, false, ⟨2⟩⟩

def c7D : RoomItemWithDetails := ⟨4, 1, 2, 1, false, 1, false, ⟨2⟩⟩

def c5Pool : List RoomItemWithDetails :=
  [⟨1, 1, 1, 100, true, 2, false, ⟨1⟩⟩, ⟨2, 1, 2, 100, false, 1, false, ⟨2⟩⟩,
   ⟨3, 1, 3, 100, false, 1, false, ⟨3⟩⟩]

def c6Catalog : List Room := [⟨1, 90, 3, true⟩, ⟨2, 5, 3, true⟩, ⟨3, 5, 3, true⟩]

def c9Pool : List RoomItemWithDetails :=
  [⟨1, 1, 1, 100, true, 2, false, ⟨1⟩⟩, ⟨2, 1, 2, 50, false, 1, true, ⟨2⟩⟩]

def c10Catalog : List Room := [⟨1, 90, 3, true⟩, ⟨2, 5, 3, false⟩]

/-! ### Claims -/

/-- Claim C1 (code check): the production Weighted Item Drafter drops a
guaranteed assignment.  With pool `[c1Guaranteed, c1Weighted]` (one
guaranteed assignment, so `g = 1` and `count = 1 ≥ g`) and a random
shuffle that brings the weighted copies to the front, the result is
`[c1Weighted]` and the guaranteed assignment does not appear:
`DatabaseStorage.getRandomRoomItemsWithDetails` never reads
`isGuaranteed`.  The shuffle used (`List.reverse`) is a genuine
permutation of the replication pool. -/
theorem c1_guaranteed_item_dropped :
    c1Guaranteed.isGuaranteed = true ∧ c1Weighted.isGuaranteed = false ∧
    (List.reverse (itemPoolFor [c1Guaranteed, c1Weighted])).Perm
      (itemPoolFor [c1Guaranteed, c1Weighted]) ∧
    getRandomRoomItemsWithDetails List.reverse c1Room
      [c1Guaranteed, c1Weighted] 1 = [c1Weighted] ∧
    c1Guaranteed ∉ getRandomRoomItemsWithDetails List.reverse c1Room
      [c1Guaranteed, c1Weighted] 1 := by
  refine ⟨rfl, rfl, (List.reverse_perm _), by decide, by decide⟩

/-- Claim C2, counterexample: with a non-empty catalog and `count = 0`
the Weighted Room Selector does not return an empty sequence — the
`selectedRooms.length === count` break never fires, so the walk collects
every distinct room.  (Shuffle `id` is a permutation.) -/
theorem c2_counterexample :
    getRandomRooms id [c2Room] 0 = [c2Room] ∧
    getRandomRooms id [c2Room] 0 ≠ [] := by
  refine ⟨by decide, by decide⟩

/-- Claim C2, amended: for `count ≤ 0` the Weighted Item Drafter always
returns an empty sequence, while the Weighted Room Selector returns an
empty sequence when its catalog is empty (for a non-empty catalog it
instead returns every distinct room, see the counterexample). -/
theorem c2_amended_count_nonpositive (count : Int) (h : count ≤ 0) :
    (∀ (shuffle : List RoomItemWithDetails → List RoomItemWithDetails)
      (room : Room) (pool : List RoomItemWithDetails),
        getRandomRoomItemsWithDetails shuffle room pool count = []) ∧
    (∀ shuffle : List Room → List Room, (shuffle []).Perm [] →
        getRandomRooms shuffle [] count = []) := by
  constructor
  · intro shuffle room pool
    unfold getRandomRoomItemsWithDetails
    by_cases hl : (pool.length : Int) ≤ count
    · rw [if_pos hl]
      have hlen : pool.length = 0 := by omega
      exact List.length_eq_zero.mp hlen
    · rw [if_neg hl]
      rw [consumeItems_stop _ _ _ _ _ _ (by simp; omega)]
      rfl
  · intro shuffle hperm
    unfold getRandomRooms
    by_cases h0 : ((([] : List Room)).length : Int) ≤ count
    · rw [if_pos h0]
    · rw [if_neg h0]
      have hnil : shuffle (weightedRoomsFor []) = [] := List.Perm.eq_nil hperm
      rw [hnil]
      rfl

/-- Claim C2, witness for the amended theorem at `count = -1`. -/
theorem c2_amended_witness :
    getRandomRoomItemsWithDetails id c1Room c9Pool (-1) = [] ∧
    getRandomRooms id [] (-1) = [] :=
  ⟨(c2_amended_count_nonpositive (-1) (by decide)).1 id c1Room c9Pool,
   (c2_amended_count_nonpositive (-1) (by decide)).2 id (List.Perm.refl _)⟩

/-- Claim C3, counterexample: with the single repeatable assignment
(probability 100, canRepeat, maxRepeats 3), `count = 3` and
`randomizeRepeats = true`, the code returns `[item1]`, not
`[item1, item1, item1]`: the `allRoomItems.length <= count` early return
fires before any repeat logic runs. -/
theorem c3_counterexample :
    c3Room.randomizeRepeats = true ∧
    getRandomRoomItemsWithDetails id c3Room [c3Assign] 3
      ≠ [c3Assign, c3Assign, c3Assign] ∧
    getRandomRoomItemsWithDetails id c3Room [c3Assign] 3 = [c3Assign] := by
  refine ⟨rfl, by decide, by decide⟩

/-- Claim C3, amended: in that scenario the Weighted Item Drafter always
returns the assignment exactly once, `[item1]`, because the pool length 1
is at most `count = 3` and the early-return branch hands back the pool
unchanged. -/
theorem c3_amended_single_item
    (shuffle : List RoomItemWithDetails → List RoomItemWithDetails)
    (room : Room) (h : room.randomizeRepeats = true) :
    getRandomRoomItemsWithDetails shuffle room [c3Assign] 3 = [c3Assign] := by
  unfold getRandomRoomItemsWithDetails
  rw [if_pos (by decide)]

/-- Claim C3, witness for the amended theorem. -/
theorem c3_amended_witness :
    c3Room.randomizeRepeats = true ∧
    getRandomRoomItemsWithDetails id c3Room [c3Assign] 3 = [c3Assign] :=
  ⟨by decide, c3_amended_single_item id c3Room (by decide)⟩

/-- Claim C8: the engine is deterministic once the random source is
fixed — two random sources that return the same permutations give
identical output of both the Weighted Room Selector and the Weighted
Item Drafter on every input (the embedding is pure, so a repeated call
with the same shuffle is literally the same value). -/
theorem c8_determinism (sR1 sR2 : List Room → List Room)
    (sI1 sI2 : List RoomItemWithDetails → List RoomItemWithDetails)
    (hR : ∀ l, sR1 l = sR2 l) (hI : ∀ l, sI1 l = sI2 l) :
    (∀ (catalog : List Room) (count : Int),
        getRandomRooms sR1 catalog count = getRandomRooms sR2 catalog count) ∧
    (∀ (room : Room) (pool : List RoomItemWithDetails) (count : Int),
        getRandomRoomItemsWithDetails sI1 room pool count
          = getRandomRoomItemsWithDetails sI2 room pool count) := by
  have h1 : sR1 = sR2 := funext hR
  have h2 : sI1 = sI2 := funext hI
  subst h1
  subst h2
  exact ⟨fun _ _ => rfl, fun _ _ _ => rfl⟩

/-- Claim C8, witness. -/
theorem c8_determinism_witness :
    getRandomRooms id c10Catalog 1 = getRandomRooms id c10Catalog 1 ∧
    getRandomRoomItemsWithDetails id c1Room c9Pool 1
      = getRandomRoomItemsWithDetails id c1Room c9Pool 1 :=
  ⟨(c8_determinism id id id id (fun _ => rfl) (fun _ => rfl)).1 c10Catalog 1,
   (c8_determinism id id id id (fun _ => rfl) (fun _ => rfl)).2 c1Room c9Pool 1⟩

/-- Claim C9: whenever the assignment pool is no longer than `count`, the
Weighted Item Drafter returns the pool itself — every assignment exactly
once, in stored order, with no randomness, guaranteed handling,
weighting, or repeat logic applied. -/
theorem c9_pool_returned_whole
    (shuffle : List RoomItemWithDetails → List RoomItemWithDetails)
    (room : Room) (pool : List RoomItemWithDetails) (count : Int)
    (h : (pool.length : Int) ≤ count) :
    getRandomRoomItemsWithDetails shuffle room pool count = pool := by
  unfold getRandomRoomItemsWithDetails
  rw [if_pos h]

/-- Claim C9, witness: a two-assignment pool with `count = 5`. -/
theorem c9_witness :
    ((c9Pool.length : Int) ≤ 5) ∧
    getRandomRoomItemsWithDetails List.reverse c1Room c9Pool 5 = c9Pool :=
  ⟨by decide, c9_pool_returned_whole List.reverse c1Room c9Pool 5 (by decide)⟩

/-- Claim C10: whenever the catalog is no longer than `count`, the
Weighted Room Selector returns the whole catalog in its given order; no
shuffle is applied on this branch. -/
theorem c10_catalog_returned_whole (shuffle : List Room → List Room)
    (catalog : List Room) (count : Int)
    (h : (catalog.length : Int) ≤ count) :
    getRandomRooms shuffle catalog count = catalog := by
  unfold getRandomRooms
  rw [if_pos h]

/-- Claim C10, witness: a two-room catalog with `count = 2`. -/
theorem c10_witness :
    ((c10Catalog.length : Int) ≤ 2) ∧
    getRandomRooms List.reverse c10Catalog 2 = c10Catalog :=
  ⟨by decide, c10_catalog_returned_whole List.reverse c10Catalog 2 (by decide)⟩

/-! ### Termination bound for the consumption loop

Every loop iteration strictly decreases the potential
`pool.length + (count - result.length - 1).toNat`: a skip removes one
pool entry; an acceptance without re-queue removes one pool entry and
fills one result slot; an acceptance with re-queue keeps the pool length
but fills one result slot while the result is still short of `count`. -/

theorem consumeItems_isSome_of_fuel (room : Room) (count : Int) :
    ∀ (fuel : Nat) (pool : List RoomItemWithDetails) (cnts : Nat → Nat)
      (result : List RoomItemWithDetails),
      pool.length + (count - result.length - 1).toNat ≤ fuel →
      (consumeItems room count fuel pool cnts result).isSome := by
  intro fuel
  induction fuel with
  | zero =>
    intro pool cnts result hfuel
    by_cases hc : ((result.length : Int) < count)
    · cases pool with
      | nil => rw [consumeItems_nil]; rfl
      | cons ri rest =>
        exfalso
        simp only [List.length_cons] at hfuel
        omega
    · rw [consumeItems_stop _ _ _ _ _ _ hc]; rfl
  | succ f ih =>
    intro pool cnts result hfuel
    by_cases hc : ((result.length : Int) < count)
    · cases pool with
      | nil => rw [consumeItems_nil]; rfl
      | cons ri rest =>
        rw [consumeItems_succ _ _ _ _ _ _ _ hc]
        simp only [List.length_cons] at hfuel
        by_cases h1 : (ri.canRepeat = false ∧ 0 < cnts ri.itemId)
        · rw [if_pos h1]
          exact ih rest cnts result (by omega)
        · rw [if_neg h1]
          by_cases h2 : (ri.canRepeat = true ∧ (cnts ri.itemId : Int) ≥ capOf ri)
          · rw [if_pos h2]
            exact ih rest cnts result (by omega)
          · rw [if_neg h2]
            by_cases h3 : (room.randomizeRepeats = true ∧ ri.canRepeat = true ∧
                ((cnts ri.itemId : Int) + 1 < capOf ri) ∧
                (((result ++ [ri]).length : Int) < count))
            · rw [if_pos h3]
              apply ih
              have hlen : ((result ++ [ri]).length : Int) < count := h3.2.2.2
              simp only [List.length_append, List.length_cons,
                List.length_nil] at hlen ⊢
              omega
            · rw [if_neg h3]
              apply ih
              simp only [List.length_append, List.length_cons, List.length_nil]
              omega
    · rw [consumeItems_stop _ _ _ _ _ _ hc]; rfl

/-- Claim C7, counterexample: an input on which the consumption loop does
not finish within `pool.length` iterations.  The pool is
`[c7A, c7B, c7C, c7D]` (one copy each, length 4) with `count = 3` and
`randomizeRepeats = true`: the accepted repeatable entry `c7A` is
re-queued, `c7C`/`c7D` are skipped as exhausted repeats of itemId 2, and
the re-queued `c7A` is consumed on a fifth iteration, so 4 iterations of
fuel end in `none` while 6 complete with result `[c7A, c7B, c7A]`. -/
theorem c7_counterexample :
    consumeItems c7Room 3 (itemPoolFor [c7A, c7B, c7C, c7D]).length
        (itemPoolFor [c7A, c7B, c7C, c7D]) (fun _ => 0) [] = none ∧
    consumeItems c7Room 3 ((itemPoolFor [c7A, c7B, c7C, c7D]).length + 2)
        (itemPoolFor [c7A, c7B, c7C, c7D]) (fun _ => 0) []
      = some [c7A, c7B, c7A] := by
  refine ⟨by decide, by decide⟩

/-- Claim C7, amended: the consumption loop always terminates, within at
most `pool.length + max (count - 1) 0` iterations of the loop (re-queues
can push the iteration count past `pool.length`, but each re-queue
follows an acceptance that left the result short of `count`, so at most
`count - 1` re-queues happen). -/
theorem c7_amended_bound (room : Room) (count : Int)
    (pool : List RoomItemWithDetails) :
    (consumeItems room count (pool.length + (count - 1).toNat) pool
      (fun _ => 0) []).isSome := by
  apply consumeItems_isSome_of_fuel
  simp only [List.length_nil]
  omega

/-! ### Repeat caps -/

/-- The number of times the consumption loop can accept an assignment:
`maxRepeats || 1` times when it can repeat, once otherwise. -/
def capN (ri : RoomItemWithDetails) : Nat :=
  if ri.canRepeat then (capOf ri).toNat else 1

/-- Loop invariant for the repeat caps: each assignment occurs in the
result at most `capN` times and at most as often as its itemId counter
records.  The counter is monotone and every acceptance is guarded by the
skip checks, so the bound survives every iteration. -/
theorem consumeItems_count_le (room : Room) (count : Int) :
    ∀ (fuel : Nat) (pool : List RoomItemWithDetails) (cnts : Nat → Nat)
      (result : List RoomItemWithDetails),
      (∀ x : RoomItemWithDetails,
        result.count x ≤ capN x ∧ result.count x ≤ cnts x.itemId) →
      ∀ x : RoomItemWithDetails,
        ((consumeItems room count fuel pool cnts result).getD []).count x
          ≤ capN x := by
  intro fuel
  induction fuel with
  | zero =>
    intro pool cnts result hInv x
    by_cases hc : ((result.length : Int) < count)
    · cases pool with
      | nil => rw [consumeItems_nil]; exact (hInv x).1
      | cons ri rest =>
        rw [consumeItems_zero _ _ _ _ _ _ hc]
        simp
    · rw [consumeItems_stop _ _ _ _ _ _ hc]; exact (hInv x).1
  | succ f ih =>
    intro pool cnts result hInv x
    by_cases hc : ((result.length : Int) < count)
    · cases pool with
      | nil => rw [consumeItems_nil]; exact (hInv x).1
      | cons ri rest =>
        rw [consumeItems_succ _ _ _ _ _ _ _ hc]
        by_cases h1 : (ri.canRepeat = false ∧ 0 < cnts ri.itemId)
        · rw [if_pos h1]; exact ih rest cnts result hInv x
        · rw [if_neg h1]
          by_cases h2 : (ri.canRepeat = true ∧ (cnts ri.itemId : Int) ≥ capOf ri)
          · rw [if_pos h2]; exact ih rest cnts result hInv x
          · rw [if_neg h2]
            apply ih
            intro y
            have hle : result.count y ≤ cnts y.itemId := (hInv y).2
            by_cases hy : y = ri
            · subst hy
              have hone : (result ++ [y]).count y = result.count y + 1 := by
                simp [List.count_append]
              rw [hone]
              constructor
              · cases hcr : y.canRepeat with
                | false =>
                  have hz : cnts y.itemId = 0 := by
                    by_contra hnz
                    exact h1 ⟨hcr, by omega⟩
                  have hcap : capN y = 1 := by simp [capN, hcr]
                  omega
                | true =>
                  have hlt : (cnts y.itemId : Int) < capOf y := by
                    by_contra hge
                    exact h2 ⟨hcr, by omega⟩
                  have hcap : capN y = (capOf y).toNat := by simp [capN, hcr]
                  omega
              · simp only [eq_self_iff_true, if_true]
                omega
            · have hzero : (result ++ [ri]).count y = result.count y := by
                simp [List.count_append, List.count_eq_zero.mpr, hy]
              rw [hzero]
              refine ⟨(hInv y).1, ?_⟩
              by_cases hid : y.itemId = ri.itemId
              · rw [hid] at hle ⊢
                simp only [eq_self_iff_true, if_true]
                omega
              · simp only [if_neg hid]
                omega
    · rw [consumeItems_stop _ _ _ _ _ _ hc]; exact (hInv x).1

/-- Claim C5: in any single draw, an assignment with `canRepeat` occurs
at most `maxRepeats` times and an assignment without `canRepeat` at most
once.  The hypotheses record the stored-data invariants the pool enjoys
in the program (assignment ids are a primary key, so the pool lists each
assignment once, and `maxRepeats ≥ 1` per the data model). -/
theorem c5_repeat_cap
    (shuffle : List RoomItemWithDetails → List RoomItemWithDetails)
    (room : Room) (pool : List RoomItemWithDetails) (count : Int)
    (h1 : (pool.map RoomItemWithDetails.id).Nodup)
    (h2 : ∀ ri ∈ pool, 1 ≤ ri.maxRepeats) :
    ∀ ri ∈ pool,
      (getRandomRoomItemsWithDetails shuffle room pool count).count ri
        ≤ if ri.canRepeat then ri.maxRepeats.toNat else 1 := by
  intro ri hmem
  have hmax : 1 ≤ ri.maxRepeats := h2 ri hmem
  have hcap : capN ri = if ri.canRepeat then ri.maxRepeats.toNat else 1 := by
    unfold capN capOf jsOr
    cases hcr : ri.canRepeat with
    | false => simp
    | true =>
      simp only [if_true]
      rw [if_neg (by omega : ¬ ri.maxRepeats = 0)]
  unfold getRandomRoomItemsWithDetails
  by_cases hl : (pool.length : Int) ≤ count
  · rw [if_pos hl]
    have hnd : pool.Nodup := List.Nodup.of_map _ h1
    have hone : pool.count ri ≤ 1 := List.nodup_iff_count_le_one.mp hnd ri
    cases hcr : ri.canRepeat with
    | false => simpa using hone
    | true =>
      simp only [if_true]
      omega
  · rw [if_neg hl]
    rw [← hcap]
    exact consumeItems_count_le room count _ _ (fun _ => 0) []
      (fun x => by simp) ri

/-- Claim C5, witness: a three-assignment pool drawn with `count = 2`,
reversed pool order. -/
theorem c5_repeat_cap_witness :
    ((c5Pool.map RoomItemWithDetails.id).Nodup) ∧
    (∀ ri ∈ c5Pool, 1 ≤ ri.maxRepeats) ∧
    (∀ ri ∈ c5Pool,
      (getRandomRoomItemsWithDetails List.reverse c1Room c5Pool 2).count ri
        ≤ if ri.canRepeat then ri.maxRepeats.toNat else 1) :=
  ⟨by decide, by decide,
    c5_repeat_cap List.reverse c1Room c5Pool 2 (by decide) (by decide)⟩

/-! ### Distinctness and length of the room selection -/

/-- The walk over the shuffled pool yields rooms with pairwise-distinct
ids, none of which was already selected. -/
theorem walkRooms_nodup (count : Int) :
    ∀ (pool : List Room) (ids : List Nat) (len : Nat),
      ((walkRooms count pool ids len).map Room.id).Nodup ∧
      ∀ i ∈ (walkRooms count pool ids len).map Room.id, i ∉ ids := by
  intro pool
  induction pool with
  | nil =>
    intro ids len
    exact ⟨by simp [walkRooms], by simp [walkRooms]⟩
  | cons r rest ih =>
    intro ids len
    by_cases hmem : r.id ∈ ids
    · simp only [walkRooms, if_pos hmem]
      exact ih ids len
    · by_cases hbr : ((len + 1 : Nat) : Int) = count
      · simp only [walkRooms, if_neg hmem, if_pos hbr]
        refine ⟨by simp, ?_⟩
        intro i hi
        simp only [List.map_cons, List.map_nil, List.mem_singleton] at hi
        subst hi
        exact hmem
      · simp only [walkRooms, if_neg hmem, if_neg hbr]
        obtain ⟨hnd, hnotin⟩ := ih (r.id :: ids) (len + 1)
        constructor
        · simp only [List.map_cons]
          rw [List.nodup_cons]
          refine ⟨fun hmem' => (hnotin _ hmem') (by simp), hnd⟩
        · intro i hi
          simp only [List.map_cons, List.mem_cons] at hi
          rcases hi with rfl | hi
          · exact hmem
          · intro hin
            exact hnotin i hi (List.mem_cons_of_mem _ hin)

/-- Claim C6: for a catalog with pairwise-distinct room ids, the result
of the Weighted Room Selector contains no repeated room id, for every
count and every random shuffle.  On the small-catalog branch this is the
catalog's own distinctness; on the weighted branch the `selectedIds` set
enforces it. -/
theorem c6_no_duplicate_rooms (shuffle : List Room → List Room)
    (catalog : List Room) (count : Int)
    (h : (catalog.map Room.id).Nodup) :
    ((getRandomRooms shuffle catalog count).map Room.id).Nodup := by
  unfold getRandomRooms
  by_cases hl : (catalog.length : Int) ≤ count
  · rw [if_pos hl]; exact h
  · rw [if_neg hl]; exact (walkRooms_nodup count _ [] 0).1

/-- Claim C6, witness: the three-room catalog, count 2, reversed pool. -/
theorem c6_witness :
    ((c6Catalog.map Room.id).Nodup) ∧
    ((getRandomRooms List.reverse c6Catalog 2).map Room.id).Nodup :=
  ⟨by decide, c6_no_duplicate_rooms List.reverse c6Catalog 2 (by decide)⟩

/-- Cardinality of an insert, phrased through an erase so that no
disjointness hypothesis is needed. -/
theorem card_insert_eq_erase (a : Nat) (s : Finset Nat) :
    (insert a s).card = (s.erase a).card + 1 := by
  have h1 : insert a s = insert a (s.erase a) := by
    ext x
    by_cases hx : x = a
    · subst hx; simp
    · simp [hx]
  rw [h1, Finset.card_insert_of_not_mem (Finset.not_mem_erase _ _)]

/-- The ids in `pool` that are not yet selected. -/
def newIds (pool : List Room) (ids : List Nat) : Finset Nat :=
  (pool.map Room.id).toFinset \ ids.toFinset

/-- Length of the walk over the shuffled pool: it collects fresh rooms
until either `count` is reached (counted from `len`) or the pool has no
more unselected ids. -/
theorem walkRooms_length (count : Int) :
    ∀ (pool : List Room) (ids : List Nat) (len : Nat),
      ((len : Int) < count) →
      (walkRooms count pool ids len).length
        = min (count - len).toNat (newIds pool ids).card := by
  intro pool
  induction pool with
  | nil =>
    intro ids len hlen
    simp [walkRooms, newIds]
  | cons r rest ih =>
    intro ids len hlen
    by_cases hmem : r.id ∈ ids
    · simp only [walkRooms, if_pos hmem]
      rw [ih ids len hlen]
      have : newIds (r :: rest) ids = newIds rest ids := by
        unfold newIds
        simp only [List.map_cons, List.toFinset_cons]
        rw [Finset.insert_sdiff_of_mem _ (List.mem_toFinset.mpr hmem)]
      rw [this]
    · by_cases hbr : ((len + 1 : Nat) : Int) = count
      · simp only [walkRooms, if_neg hmem, if_pos hbr, List.length_cons,
          List.length_nil]
        have h1 : (count - len).toNat = 1 := by omega
        have hin : r.id ∈ newIds (r :: rest) ids := by
          unfold newIds
          rw [Finset.mem_sdiff]
          exact ⟨by simp, fun hc => hmem (List.mem_toFinset.mp hc)⟩
        have hpos : 1 ≤ (newIds (r :: rest) ids).card :=
          Finset.card_pos.mpr ⟨_, hin⟩
        omega
      · simp only [walkRooms, if_neg hmem, if_neg hbr, List.length_cons]
        have hlt : ((len + 1 : Nat) : Int) < count := by
          push_cast at hbr ⊢
          omega
        rw [ih (r.id :: ids) (len + 1) hlt]
        have hsplit : newIds (r :: rest) ids
            = insert r.id ((rest.map Room.id).toFinset \ ids.toFinset) := by
          unfold newIds
          simp only [List.map_cons, List.toFinset_cons]
          rw [Finset.insert_sdiff_of_not_mem _
            (fun hc => hmem (List.mem_toFinset.mp hc))]
        have herase : newIds rest (r.id :: ids)
            = ((rest.map Room.id).toFinset \ ids.toFinset).erase r.id := by
          unfold newIds
          simp only [List.toFinset_cons]
          rw [Finset.sdiff_insert]
        rw [hsplit, herase, card_insert_eq_erase]
        omega

/-- Replication keeps the id set of the catalog, as long as every room
contributes at least one copy. -/
theorem weighted_ids_toFinset :
    ∀ (catalog : List Room), (∀ r ∈ catalog, 1 ≤ r.probability) →
      ((weightedRoomsFor catalog).map Room.id).toFinset
        = (catalog.map Room.id).toFinset := by
  intro catalog
  induction catalog with
  | nil => intro _; rfl
  | cons r rest ih =>
    intro hp
    unfold weightedRoomsFor
    simp only [List.flatMap_cons, List.map_append, List.toFinset_append,
      List.map_cons, List.toFinset_cons, List.map_replicate]
    have hn : r.probability.toNat ≠ 0 := by
      have := hp r (List.mem_cons_self _ _)
      omega
    rw [List.toFinset_replicate_of_ne_zero hn]
    have hrest := ih (fun x hx => hp x (List.mem_cons_of_mem _ hx))
    unfold weightedRoomsFor at hrest
    rw [hrest]
    exact (Finset.insert_eq _ _).symm

/-- Claim C4, counterexample: with a one-room catalog of probability 1
and `count = 0`, the Weighted Room Selector returns 1 room, not
`min 0 1 = 0`: the break of the walk never fires for `count = 0`. -/
theorem c4_counterexample :
    (1 ≤ c4Room.probability) ∧
    (getRandomRooms id [c4Room] 0).length ≠ min ((0 : Int)).toNat 1 := by
  refine ⟨by decide, by decide⟩

/-- Claim C4, amended: for a catalog with pairwise-distinct room ids in
which every probability is at least 1, and for every `count ≥ 1` and
every genuine shuffle (a permutation), the Weighted Room Selector
returns exactly `min count catalog.length` rooms — never more and never
fewer.  (`count = 0` is excluded: there the walk returns every distinct
room, see the counterexample.) -/
theorem c4_amended_length (shuffle : List Room → List Room)
    (hs : ∀ l : List Room, (shuffle l).Perm l)
    (catalog : List Room) (count : Int)
    (hc : 1 ≤ count)
    (hp : ∀ r ∈ catalog, 1 ≤ r.probability)
    (hnd : (catalog.map Room.id).Nodup) :
    (getRandomRooms shuffle catalog count).length
      = min count.toNat catalog.length := by
  unfold getRandomRooms
  by_cases hl : (catalog.length : Int) ≤ count
  · rw [if_pos hl]
    omega
  · rw [if_neg hl]
    rw [walkRooms_length count _ [] 0 (by omega)]
    have hperm : ((shuffle (weightedRoomsFor catalog)).map Room.id).toFinset
        = ((weightedRoomsFor catalog).map Room.id).toFinset :=
      List.toFinset_eq_of_perm _ _ ((hs _).map Room.id)
    unfold newIds
    rw [hperm, weighted_ids_toFinset catalog hp]
    simp only [List.toFinset_nil, Finset.sdiff_empty]
    rw [List.toFinset_card_of_nodup hnd, List.length_map]
    omega

/-- Claim C4, witness: two rooms of probability 1, `count = 1`,
identity shuffle. -/
theorem c4_amended_witness :
    ((1 : Int) ≤ 1) ∧ (∀ r ∈ [c4RoomA, c4RoomB], 1 ≤ r.probability) ∧
    (([c4RoomA, c4RoomB].map Room.id).Nodup) ∧
    (getRandomRooms id [c4RoomA, c4RoomB] 1).length
      = min ((1 : Int)).toNat [c4RoomA, c4RoomB].length :=
  ⟨by decide, by decide, by decide,
    c4_amended_length id (fun l => List.Perm.refl l) [c4RoomA, c4RoomB] 1
      (by decide) (by decide) (by decide)⟩

end Drafting
